import Mathlib

/-!
Verification development for the `bbo` Bayesian-optimization designer
(`src/bbo/algorithms/bo.py`, class `BODesigner`).

The designer's own logic (construction-time bounds extraction, the
bootstrap/model-based dispatch in `suggest`, the feature/label checks, the
NSGA-II batch-assembly algorithm in `optimize_acqf`, and `update`) is embedded
directly from the source.  External collaborators (trial converter, the random
and NSGA-II sub-designers, botorch's `optimize_acqf`, the acquisition-function
factory) are modelled from the specification at their interface boundary and
passed in as explicit parameters, so theorems state their assumptions as
hypotheses.

Numbers are modelled as rationals (the claims under study are about control
flow, counts, ordering and bounds, not floating-point rounding); the label
standardization formula of `suggest` (line 210) is additionally embedded over
the reals, where its mean/deviation properties live.
-/

namespace BBO

/-- Feature-group spec types of the trial converter (`SpecType` in
`bbo.utils.converters.converter`); continuous parameters are `DOUBLE`. -/
inductive SpecType
  | DOUBLE
  | INTEGER
  | CATEGORICAL
  | DISCRETE
  deriving DecidableEq, Repr

/-- A search-space parameter: declared spec type plus box bounds. -/
structure Param where
  name : String
  type : SpecType
  lb : ℚ
  ub : ℚ
  deriving DecidableEq, Repr

/-- A problem statement: search space plus objective metric names. -/
structure Problem where
  params : List Param
  metrics : List String
  deriving DecidableEq, Repr

/-- A trial: a parameter assignment (as a numeric vector) plus observed
metric values. -/
structure Trial where
  params : List ℚ
  metrics : List ℚ
  deriving DecidableEq, Repr

/-- A candidate point: one row of a candidate matrix. -/
abbrev Point : Type := List ℚ

/-- Python exceptions raised by the embedded code paths. -/
inductive PyErr
  | unsupportedVariableType
  | unsupportedMultiobjective
  | notImplemented
  | typeError
  deriving DecidableEq, Repr

/-- Log messages emitted via `logger.warning`. -/
inductive LogMsg
  | nsgaiiSingleObjective
  deriving DecidableEq, Repr

/-- `_acqf_type`: a single acquisition name or a list of names
(source lines 59-65). -/
inductive AcqfTypeCfg
  | single (name : String)
  | multi (names : List String)
  deriving DecidableEq, Repr

/-- The `_acqf_config` dict, read through `.get` with these defaults
(source lines 148-149, 158). -/
structure AcqfConfig where
  pop_size : Nat := 20
  n_offsprings : Option Nat := none
  epochs : Nat := 200
  deriving DecidableEq, Repr

/-- The constructor configuration of `BODesigner` with its field defaults
(source lines 31-70). -/
structure BOConfig where
  n_init : Nat := 10
  q : Nat := 1
  device : String := "cpu"
  mean_type : Option String := none
  kernel_type : Option String := none
  mll_optimizer : String := "l-bfgs"
  mll_lr : Option ℚ := none
  mll_epochs : Option Nat := none
  acqf_type : AcqfTypeCfg := AcqfTypeCfg.single "qEI"
  acqf_optimizer : String := "l-bfgs"
  acqf_config : AcqfConfig := {}
  deriving DecidableEq, Repr

/-- The configuration value obtained by supplying only the problem statement:
every keyword field keeps its declared default. -/
def defaultBOConfig : BOConfig := {}

/-- One entry of the converter's `output_spec` (declared type plus bounds). -/
structure OutputSpec where
  type : SpecType
  lb : ℚ
  ub : ℚ
  deriving DecidableEq, Repr

/-- Modelled from the spec (§6): the converter's `output_spec` mapping gives,
per feature group, its declared type and bounds; a problem's parameters
determine these entries.  (The converter `DefaultTrialConverter` is not under
`src/`.) -/
def outputSpec (p : Problem) : List OutputSpec :=
  p.params.map (fun pa => ⟨pa.type, pa.lb, pa.ub⟩)

/-- The bounds-extraction loop of `__attrs_post_init__` (source lines 78-85):
append each spec's bounds if its type is `DOUBLE`, otherwise raise
`NotImplementedError('Unsupported variable type for BO')`. -/
def boundsOf : List OutputSpec → Except PyErr (List ℚ × List ℚ)
  | [] => .ok ([], [])
  | s :: rest =>
    match s.type with
    | SpecType.DOUBLE =>
      match boundsOf rest with
      | .ok (lb, ub) => .ok (s.lb :: lb, s.ub :: ub)
      | .error e => .error e
    | _ => .error PyErr.unsupportedVariableType

/-- The designer state after a successful construction: problem,
configuration, the bounds vectors `_lb`, `_ub`, and the trial history
`_trials`. -/
structure Designer where
  problem : Problem
  cfg : BOConfig
  lb : List ℚ
  ub : List ℚ
  trials : List Trial
  deriving DecidableEq, Repr

/-- `BODesigner` construction (`__attrs_post_init__`, source lines 75-86):
derive `(lb, ub)` from the converter's output spec, raising on any
non-`DOUBLE` feature group; `_trials` starts empty (line 73). -/
def mkDesigner (p : Problem) (cfg : BOConfig) : Except PyErr Designer :=
  match boundsOf (outputSpec p) with
  | .error e => .error e
  | .ok (lb, ub) => .ok ⟨p, cfg, lb, ub, []⟩

/-- `x` lies within `[lb, ub]` element-wise. -/
def inBounds (lb ub x : List ℚ) : Bool :=
  (x.zip (lb.zip ub)).all (fun p => decide (p.2.1 ≤ p.1) && decide (p.1 ≤ p.2.2))

/-- The acquisition value produced by `create_acqf` (source lines 118-127):
a bare scoring function for a single configured name, a list of scoring
functions for a list of names.  Scoring functions themselves are modelled from
the spec (§4.4) as numeric functions of a candidate point. -/
inductive AcqfValue
  | single (f : Point → ℚ)
  | multi (fs : List (Point → ℚ))

/-- `create_acqf` (source lines 118-127): one `acqf_factory` call per
configured name; a list configuration yields a list, a single name yields the
bare factory result. -/
def create_acqf (t : AcqfTypeCfg) (factory : String → Point → ℚ) : AcqfValue :=
  match t with
  | .single s => .single (factory s)
  | .multi l => .multi (l.map factory)

/-- Number of metrics added to the synthetic NSGA-II objective
(source lines 138-142): one per name of a list configuration, one for a
single name. -/
def numMetrics : AcqfTypeCfg → Nat
  | .single _ => 1
  | .multi l => l.length

/-- The inner objective `acqf_obj` (source lines 151-156): it iterates
`for acqf_tmp in acqf`.  When `create_acqf` produced a list this stacks the
per-acquisition scores; when it produced a bare scoring function the iteration
is over a non-iterable Python object and raises `TypeError`.
(Modelled from the spec for the factory's output: `acqf_factory` — not under
`src/` — returns a scoring function, §4.4, which is not iterable.) -/
def acqf_obj (acqf : AcqfValue) (x : List Point) : Except PyErr (List (List ℚ)) :=
  match acqf with
  | .single _ => .error PyErr.typeError
  | .multi fs => .ok (x.map (fun p => fs.map (fun f => f p)))

/-- The generation loop of the NSGA-II branch (source lines 158-161): each
epoch the experimenter evaluates `acqf_obj` on the current population tensor;
an exception from any evaluation propagates.  The population contents per
epoch come from the external NSGA-II designer and are passed in as `pops`. -/
def runGenerations (acqf : AcqfValue) (pops : Nat → List Point) : Nat → Except PyErr Unit
  | 0 => .ok ()
  | n + 1 =>
    match acqf_obj acqf (pops n) with
    | .error e => .error e
    | .ok _ => runGenerations acqf pops n

/-- numpy membership as executed by `x not in pareto_X` on a 2-D array
(source line 166): `pareto_X.__contains__(x)` is `(pareto_X == x).any()`, a
broadcast element-wise comparison — true iff SOME coordinate of `x` equals the
coordinate in the same column of SOME row of `pareto_X`. -/
def npContains (pareto : List Point) (x : Point) : Bool :=
  pareto.any (fun row => (row.zip x).any (fun p => decide (p.1 = p.2)))

/-- `diff_X = [x for x in pop_X if x not in pareto_X]` (source lines 166-167),
with numpy's element-wise-any membership semantics. -/
def diffX (pareto pop : List Point) : List Point :=
  pop.filter (fun x => ! npContains pareto x)

/-- The set difference the specification describes (`diff_X = pop_X \
pareto_X`, "population members not on the current Pareto front, by
set-membership comparison of raw coordinate vectors"): keep exactly the rows
of `pop_X` that equal no row of `pareto_X`.  Stated from the spec's words for
comparison with `diffX`. -/
def diffX_spec (pareto pop : List Point) : List Point :=
  pop.filter (fun x => decide (¬ x ∈ pareto))

/-- Row selection `xs[idx]` by an index array (numpy fancy indexing on the
first axis). -/
def selectRows (xs : List Point) (idx : List Nat) : List Point :=
  idx.map (fun i => xs.getD i [])

/-- The batch-assembly algorithm of the NSGA-II branch (source lines 163-186).
`choice n k` stands for `np.random.choice(n, k, replace=False)` (the random
draw of `k` distinct indices below `n`); `randFill k` stands for the
bootstrap-random fill `self._init_designer.suggest(k)` converted to feature
rows (source lines 180-185). -/
def assembleBatch (q : Nat) (pareto pop : List Point)
    (choice : Nat → Nat → List Nat) (randFill : Nat → List Point) : List Point :=
  let diff := diffX pareto pop
  if q ≤ pareto.length then
    selectRows pareto (choice pareto.length q)
  else
    let fromDiff :=
      if 0 < diff.length then
        selectRows diff (choice diff.length (min diff.length (q - pareto.length)))
      else []
    let quota := q - (pareto.length + fromDiff.length)
    let fromRand := if 0 < quota then randFill quota else []
    pareto ++ fromDiff ++ fromRand

/-- The external collaborators consumed by one `suggest` call, each at its
interface boundary (spec §6): the bootstrap random sub-designer, the
acquisition-function factory, botorch's continuous optimizer (returning `q`
candidates), the NSGA-II populations fed to the objective each generation, the
final Pareto set and population (`result()` / `curr_pop()`), the random index
draw, and the bootstrap feature-row fill. -/
structure Ext where
  randomSuggest : Option Nat → List Trial
  factory : String → Point → ℚ
  botorchOpt : AcqfValue → Nat → List Point
  pops : Nat → List Point
  pareto : List Point
  pop : List Point
  choice : Nat → Nat → List Nat
  randFill : Nat → List Point

/-- `optimize_acqf` (source lines 129-190): the `l-bfgs` branch delegates to
botorch with `q=self._q`; the `nsgaii` branch logs the degenerate-objective
warning when at most one metric is configured (lines 143-144), runs the
generation loop, then assembles the batch; any other optimizer name raises
`NotImplementedError` (line 188). -/
def optimize_acqf (cfg : BOConfig) (acqf : AcqfValue) (e : Ext) :
    List LogMsg × Except PyErr (List Point) :=
  if cfg.acqf_optimizer = "l-bfgs" then
    ([], .ok (e.botorchOpt acqf cfg.q))
  else if cfg.acqf_optimizer = "nsgaii" then
    let warns := if numMetrics cfg.acqf_type ≤ 1 then [LogMsg.nsgaiiSingleObjective] else []
    match runGenerations acqf e.pops cfg.acqf_config.epochs with
    | .error err => (warns, .error err)
    | .ok _ => (warns, .ok (assembleBatch cfg.q e.pareto e.pop e.choice e.randFill))
  else
    ([], .error PyErr.notImplemented)

/-- Modelled from the spec (§2, §6): `converter.convert` groups features by
declared parameter type, so the keys of the features dict are the distinct
spec types occurring in the search space.  (The converter is not under
`src/`.) -/
def featureTypes (p : Problem) : List SpecType :=
  (p.params.map Param.type).dedup

/-- Modelled from the spec (§6): labels are returned per metric, one column
each, so after `np.concatenate(..., axis=-1)` the label matrix has one column
per objective metric.  (The converter is not under `src/`.) -/
def labelCols (p : Problem) : Nat :=
  p.metrics.length

/-- Modelled from the spec (§6): `converter.to_trials` maps each candidate
feature row back to one trial.  (The converter is not under `src/`.) -/
def toTrials (pts : List Point) : List Trial :=
  pts.map (fun r => { params := r, metrics := [] })

/-- `BODesigner.suggest` (source lines 192-224).  Bootstrap state
(`len(self._trials) < self._n_init`) delegates to the random sub-designer with
the caller's `count`.  The model-based branch rebinds `count` (line 196: dead
afterwards), checks that the features dict has exactly the `DOUBLE` key
(lines 200-201), checks the label matrix has at most one column
(lines 208-209), builds the acquisition value and optimizes it.  Model fitting
(lines 215-216) is an external capability with no observable effect on the
returned batch beyond the acquisition functions, which are abstracted through
`e.factory`. -/
def suggest (d : Designer) (e : Ext) (count : Option Nat) :
    List LogMsg × Except PyErr (List Trial) :=
  if d.trials.length < d.cfg.n_init then
    ([], .ok (e.randomSuggest count))
  else
    let _c := count.getD 1
    if ¬ (SpecType.DOUBLE ∈ featureTypes d.problem ∧ (featureTypes d.problem).length = 1) then
      ([], .error PyErr.unsupportedVariableType)
    else if 1 < labelCols d.problem then
      ([], .error PyErr.unsupportedMultiobjective)
    else
      let res := optimize_acqf d.cfg (create_acqf d.cfg.acqf_type e.factory) e
      (res.1, res.2.map toTrials)

/-- `BODesigner.update` (source lines 226-227):
`self._trials.extend(completed)`. -/
def update (d : Designer) (completed : List Trial) : Designer :=
  { d with trials := d.trials ++ completed }

/-- One caller-visible operation on the designer. -/
inductive Op
  | update (batch : List Trial)
  | suggest (count : Option Nat)

/-- Effect of one operation on the designer state: `update` extends
`_trials` (source line 227); `suggest` (source lines 192-224) contains no
assignment to `self._trials`, so it leaves the designer state unchanged. -/
def applyOp (d : Designer) : Op → Designer
  | .update b => update d b
  | .suggest _ => d

/-- Run a sequence of operations. -/
def runOps (d : Designer) : List Op → Designer
  | [] => d
  | op :: ops => runOps (applyOp d op) ops

/-- The trials an operation contributes to the history. -/
def opBatch : Op → List Trial
  | .update b => b
  | .suggest _ => []

/-- Validity of the modelled `np.random.choice(n, k, replace=False)`: for
`k ≤ n` it returns `k` distinct indices below `n`. -/
def ChoiceValid (c : Nat → Nat → List Nat) : Prop :=
  ∀ n k, k ≤ n → (c n k).length = k ∧ (c n k).Nodup ∧ ∀ i ∈ c n k, i < n

/-- Validity of a point source of requested size over the designer's box:
`f k` returns exactly `k` points, all within `[lb, ub]`. -/
def FillValid (lb ub : List ℚ) (f : Nat → List Point) : Prop :=
  ∀ k, (f k).length = k ∧ ∀ x ∈ f k, inBounds lb ub x = true

/-- The interface assumptions the spec states for the external collaborators
(§4.2, §4.3, §6, §8): botorch's optimizer returns exactly `q` points within
the box; the NSGA-II Pareto set and population lie within the box; the random
index draw is a without-replacement sample; the bootstrap fill returns the
requested number of in-box points. -/
def ExtValid (d : Designer) (e : Ext) : Prop :=
  (∀ a k, (e.botorchOpt a k).length = k ∧
    ∀ x ∈ e.botorchOpt a k, inBounds d.lb d.ub x = true) ∧
  (∀ x ∈ e.pareto, inBounds d.lb d.ub x = true) ∧
  (∀ x ∈ e.pop, inBounds d.lb d.ub x = true) ∧
  ChoiceValid e.choice ∧
  FillValid d.lb d.ub e.randFill

/-- numpy `ndarray.mean()` over a vector of labels. -/
noncomputable def npMean (l : List ℝ) : ℝ := l.sum / l.length

/-- numpy `ndarray.std()` (population variance, `ddof=0`): mean squared
deviation from the mean. -/
noncomputable def npVar (l : List ℝ) : ℝ :=
  ((l.map (fun x => (x - npMean l) ^ 2)).sum) / l.length

/-- numpy `ndarray.std()`: square root of the population variance. -/
noncomputable def npStd (l : List ℝ) : ℝ := Real.sqrt (npVar l)

/-- The label standardization of `suggest` (source line 210):
`train_Y = (train_Y - train_Y.mean()) / (train_Y.std() + 1e-6)`. -/
noncomputable def standardize (l : List ℝ) : List ℝ :=
  l.map (fun y => (y - npMean l) / (npStd l + 1e-6))

/-- Concrete example problem for witnesses: one continuous parameter on
`[0, 1]`, one metric. -/
def exProblem : Problem :=
  { params := [{ name := "x", type := SpecType.DOUBLE, lb := 0, ub := 1 }],
    metrics := ["obj"] }

/-- Concrete example trial for witnesses. -/
def exTrial : Trial := { params := [0], metrics := [0] }

/-- Concrete example designer for witnesses, over `exProblem` with bounds
`[0], [1]`. -/
def mkD (cfg : BOConfig) (ts : List Trial) : Designer :=
  ⟨exProblem, cfg, [0], [1], ts⟩

/-- Concrete example Pareto set for witnesses. -/
def exPareto : List Point := [[0], [1]]

/-- Concrete example population for witnesses (a superset of `exPareto` as
rows). -/
def exPop : List Point := [[0], [1], [7]]

/-- Concrete example index draw for witnesses: the first `k` indices. -/
def exChoice : Nat → Nat → List Nat := fun _ k => List.range k

/-- Concrete example bootstrap fill for witnesses: copies of `[1]`. -/
def exFill : Nat → List Point := fun k => List.replicate k [(1 : ℚ)]

/-- Concrete example externals for witnesses: botorch and the bootstrap fill
return copies of the in-box point `[1]`; the index draw takes the first `k`
indices. -/
def exExt : Ext :=
  { randomSuggest := fun _ => [exTrial]
    factory := fun _ => fun _ => 0
    botorchOpt := fun _ k => List.replicate k [(1 : ℚ)]
    pops := fun _ => [[(1 : ℚ)]]
    pareto := []
    pop := []
    choice := exChoice
    randFill := exFill }

/-- Concrete designer in MODEL-BASED state from construction
(`n_init = 0`). -/
def exD0 : Designer := mkD { n_init := 0 } []

/-- Concrete designer with the all-default configuration and ten completed
trials (just transitioned to MODEL-BASED). -/
def exD10 : Designer := mkD defaultBOConfig (List.replicate 10 exTrial)

/-- The batch `suggest` produces for the example designers through `exExt`
(one candidate `[1]`, converted to a trial). -/
def exBatch : List Trial := [{ params := [(1 : ℚ)], metrics := [] }]

/-- Concrete problem whose search space contains a non-continuous
(categorical) parameter. -/
def exProblemCat : Problem :=
  { params := [{ name := "c", type := SpecType.CATEGORICAL, lb := 0, ub := 1 }],
    metrics := ["obj"] }

/-- Designer state over `exProblemCat` in MODEL-BASED state (as if
construction had not rejected the space), to exercise the `suggest`-side
check. -/
def exDCat : Designer := ⟨exProblemCat, { n_init := 0 }, [0], [1], []⟩

/-- Configuration selecting the evolutionary acquisition optimizer while
keeping the single default acquisition type, in MODEL-BASED state from
construction. -/
def exCfgNs : BOConfig := { n_init := 0, acqf_optimizer := "nsgaii" }

/-! ## Helper lemmas -/

theorem exChoice_valid : ChoiceValid exChoice := by
  intro n k hk
  simp only [exChoice]
  refine ⟨List.length_range k, List.nodup_range k, ?_⟩
  intro i hi
  have := List.mem_range.mp hi
  omega

theorem exFill_length : ∀ k, (exFill k).length = k := by
  intro k
  simp [exFill]

theorem selectRows_length (xs : List Point) (idx : List Nat) :
    (selectRows xs idx).length = idx.length := by
  simp [selectRows]

theorem mem_selectRows {xs : List Point} {idx : List Nat} {x : Point}
    (h : ∀ i ∈ idx, i < xs.length) (hx : x ∈ selectRows xs idx) : x ∈ xs := by
  simp only [selectRows, List.mem_map] at hx
  obtain ⟨i, hi, rfl⟩ := hx
  have hlt := h i hi
  rw [List.getD_eq_getElem _ _ hlt]
  exact List.getElem_mem hlt

theorem mem_diffX_sub_pop {pareto pop : List Point} {x : Point}
    (hx : x ∈ diffX pareto pop) : x ∈ pop :=
  (List.mem_filter.mp hx).1

theorem npContains_self {pareto : List Point} {x : Point}
    (hne : x ≠ []) (hx : x ∈ pareto) : npContains pareto x = true := by
  cases x with
  | nil => exact absurd rfl hne
  | cons a t =>
    simp only [npContains, List.any_eq_true]
    exact ⟨a :: t, hx, ⟨(a, a), by simp [List.zip], by simp⟩⟩

theorem not_mem_diffX_of_mem_pareto {pareto pop : List Point} {x : Point}
    (hne : x ≠ []) (hx : x ∈ pareto) : x ∉ diffX pareto pop := by
  intro hmem
  have := (List.mem_filter.mp hmem).2
  rw [npContains_self hne hx] at this
  simp at this

/-- Dichotomy of the bounds-extraction loop: either every output spec is
`DOUBLE` and the bounds vectors are the componentwise bound lists, or some
spec is not `DOUBLE` and construction raises. -/
theorem boundsOf_dichotomy (specs : List OutputSpec) :
    (boundsOf specs = .ok (specs.map OutputSpec.lb, specs.map OutputSpec.ub)
       ∧ ∀ s ∈ specs, s.type = SpecType.DOUBLE) ∨
    (boundsOf specs = .error PyErr.unsupportedVariableType
       ∧ ∃ s ∈ specs, s.type ≠ SpecType.DOUBLE) := by
  induction specs with
  | nil => exact Or.inl ⟨rfl, by simp⟩
  | cons s rest ih =>
    by_cases hs : s.type = SpecType.DOUBLE
    · rcases ih with ⟨hok, hall⟩ | ⟨herr, t, ht, hne⟩
      · refine Or.inl ⟨?_, ?_⟩
        · simp [boundsOf, hs, hok]
        · intro t ht
          rcases List.mem_cons.mp ht with rfl | ht'
          · exact hs
          · exact hall t ht'
      · exact Or.inr ⟨by simp [boundsOf, hs, herr], t, List.mem_cons_of_mem _ ht, hne⟩
    · refine Or.inr ⟨?_, s, List.mem_cons_self _ _, hs⟩
      cases h : s.type with
      | DOUBLE => exact absurd h hs
      | INTEGER => simp [boundsOf, h]
      | CATEGORICAL => simp [boundsOf, h]
      | DISCRETE => simp [boundsOf, h]

/-! ## Claim theorems -/

/-- C8: `update(completed)` appends the completed trials to History
unconditionally — no deduplication, no validation, no reordering, no
truncation — and `suggest` never mutates History.  Hence over any
interleaving of operations the history is the initial history followed by the
update batches concatenated in insertion order, so after `k` updates with
batch sizes `b_1..b_k` starting from an empty history its length is
`sum(b_i)`. -/
theorem C8_update_append_suggest_pure :
    (∀ (d : Designer) (b : List Trial), (update d b).trials = d.trials ++ b) ∧
    (∀ (d : Designer) (c : Option Nat), runOps d [Op.suggest c] = d) ∧
    (∀ (d : Designer) (ops : List Op),
      (runOps d ops).trials = d.trials ++ (ops.map opBatch).flatten) ∧
    (∀ (d : Designer) (ops : List Op),
      (runOps d ops).trials.length
        = d.trials.length + ((ops.map opBatch).map List.length).sum) := by
  have key : ∀ (ops : List Op) (d : Designer),
      (runOps d ops).trials = d.trials ++ (ops.map opBatch).flatten := by
    intro ops
    induction ops with
    | nil => intro d; simp [runOps]
    | cons op rest ih =>
      intro d
      cases op with
      | update b =>
        simp [runOps, applyOp, update, opBatch, ih, List.append_assoc]
      | suggest c =>
        simp [runOps, applyOp, opBatch, ih]
  refine ⟨fun d b => rfl, fun d c => rfl, fun d ops => key ops d, fun d ops => ?_⟩
  rw [key ops d]
  simp

/-- C9: constructing a `BODesigner` over a problem with any non-`DOUBLE`
parameter raises in `__attrs_post_init__` (before any `suggest`/`update`), and
every successfully constructed designer has a fully continuous search space
with `lb`, `ub` taken componentwise from the converter's output spec and an
empty initial history. -/
theorem C9_construction_rejects_noncontinuous (p : Problem) (cfg : BOConfig) :
    ((∃ pa ∈ p.params, pa.type ≠ SpecType.DOUBLE) ↔
      mkDesigner p cfg = .error PyErr.unsupportedVariableType) ∧
    (∀ d, mkDesigner p cfg = .ok d →
      (∀ pa ∈ p.params, pa.type = SpecType.DOUBLE) ∧
      d.lb = (outputSpec p).map OutputSpec.lb ∧
      d.ub = (outputSpec p).map OutputSpec.ub ∧
      d.trials = []) := by
  have hmem : ∀ pa ∈ p.params,
      (⟨pa.type, pa.lb, pa.ub⟩ : OutputSpec) ∈ outputSpec p := by
    intro pa hpa
    simp only [outputSpec, List.mem_map]
    exact ⟨pa, hpa, rfl⟩
  rcases boundsOf_dichotomy (outputSpec p) with ⟨hok, hall⟩ | ⟨herr, s, hs, hne⟩
  · constructor
    · constructor
      · rintro ⟨pa, hpa, hne⟩
        exact absurd (hall _ (hmem pa hpa)) hne
      · intro h
        rw [mkDesigner, hok] at h
        exact absurd h (by simp)
    · intro d hd
      rw [mkDesigner, hok] at hd
      refine ⟨?_, ?_⟩
      · intro pa hpa
        exact hall _ (hmem pa hpa)
      · injection hd with hd
        rw [← hd]
        exact ⟨rfl, rfl, rfl⟩
  · constructor
    · constructor
      · intro _
        rw [mkDesigner, herr]
      · intro _
        obtain ⟨pa, hpa, hpty⟩ := List.mem_map.mp hs
        exact ⟨pa, hpa, by rw [← hpty] at hne; exact hne⟩
    · intro d hd
      rw [mkDesigner, herr] at hd
      exact absurd hd (by simp)

/-- Witness for C9: construction over the all-continuous `exProblem`
succeeds with bounds `[0], [1]` and an empty history. -/
theorem C9_construction_rejects_noncontinuous_witness :
    mkDesigner exProblem defaultBOConfig
      = .ok ⟨exProblem, defaultBOConfig, [0], [1], []⟩ ∧
    ((∀ pa ∈ exProblem.params, pa.type = SpecType.DOUBLE) ∧
      (⟨exProblem, defaultBOConfig, [0], [1], []⟩ : Designer).lb
        = (outputSpec exProblem).map OutputSpec.lb ∧
      (⟨exProblem, defaultBOConfig, [0], [1], []⟩ : Designer).ub
        = (outputSpec exProblem).map OutputSpec.ub ∧
      (⟨exProblem, defaultBOConfig, [0], [1], []⟩ : Designer).trials = []) := by
  have h : mkDesigner exProblem defaultBOConfig
      = .ok ⟨exProblem, defaultBOConfig, [0], [1], []⟩ := by rfl
  exact ⟨h,
    (C9_construction_rejects_noncontinuous exProblem defaultBOConfig).2 _ h⟩

/-- C4 (code bug): `diff_X` is computed with `x not in pareto_X` on a 2-D
numpy array, whose `__contains__` is the broadcast element-wise test
`(pareto_X == x).any()`.  At `pop_X = [[1, 2]]`, `pareto_X = [[1, 3]]` the row
`[1, 2]` equals no row of `pareto_X`, yet the code excludes it from `diff_X`
because its first coordinate matches the first coordinate of `[1, 3]`; the
row-set-difference the claim (and the surrounding intent) describes would keep
it. -/
theorem C4_diff_membership_bug :
    diffX [[(1 : ℚ), 3]] [[(1 : ℚ), 2]] = [] ∧
    diffX_spec [[(1 : ℚ), 3]] [[(1 : ℚ), 2]] = [[(1 : ℚ), 2]] ∧
    ¬ ([(1 : ℚ), 2] ∈ [[(1 : ℚ), 3]]) := by
  refine ⟨?_, ?_, ?_⟩ <;> decide

/-- The assembled batch always has exactly `q` rows, given that the index
draw and the bootstrap fill honour their size contracts. -/
theorem assembleBatch_length (q : Nat) (pareto pop : List Point)
    (choice : Nat → Nat → List Nat) (randFill : Nat → List Point)
    (hc : ChoiceValid choice) (hf : ∀ k, (randFill k).length = k) :
    (assembleBatch q pareto pop choice randFill).length = q := by
  simp only [assembleBatch]
  by_cases hq : q ≤ pareto.length
  · simp only [if_pos hq, selectRows_length]
    exact (hc _ _ hq).1
  · simp only [if_neg hq]
    push_neg at hq
    by_cases hd : 0 < (diffX pareto pop).length
    · simp only [if_pos hd, List.length_append, selectRows_length]
      rw [(hc (diffX pareto pop).length
        (min (diffX pareto pop).length (q - pareto.length)) (Nat.min_le_left _ _)).1]
      by_cases hquota : 0 < q - (pareto.length +
          min (diffX pareto pop).length (q - pareto.length))
      · rw [if_pos hquota, hf]
        omega
      · rw [if_neg hquota, List.length_nil]
        omega
    · simp only [if_neg hd, List.length_nil, List.length_append]
      have hquota : 0 < q - (pareto.length + 0) := by omega
      rw [if_pos hquota, hf]
      omega

/-- Every row of the assembled batch comes from the Pareto set, the
population, or a bootstrap fill. -/
theorem assembleBatch_mem (q : Nat) (pareto pop : List Point)
    (choice : Nat → Nat → List Nat) (randFill : Nat → List Point)
    (hc : ChoiceValid choice) :
    ∀ x ∈ assembleBatch q pareto pop choice randFill,
      x ∈ pareto ∨ x ∈ pop ∨ ∃ k, x ∈ randFill k := by
  intro x hx
  simp only [assembleBatch] at hx
  by_cases hq : q ≤ pareto.length
  · rw [if_pos hq] at hx
    exact Or.inl (mem_selectRows (fun i hi => (hc _ _ hq).2.2 i hi) hx)
  · rw [if_neg hq] at hx
    by_cases hd : 0 < (diffX pareto pop).length
    · rw [if_pos hd] at hx
      rcases List.mem_append.mp hx with hx' | hrand
      · rcases List.mem_append.mp hx' with hpar | hdiff
        · exact Or.inl hpar
        · exact Or.inr (Or.inl (mem_diffX_sub_pop
            (mem_selectRows
              (fun i hi => (hc _ _ (Nat.min_le_left _ _)).2.2 i hi) hdiff)))
      · split at hrand
        · exact Or.inr (Or.inr ⟨_, hrand⟩)
        · exact absurd hrand (List.not_mem_nil x)
    · rw [if_neg hd] at hx
      rcases List.mem_append.mp hx with hx' | hrand
      · rcases List.mem_append.mp hx' with hpar | hdiff
        · exact Or.inl hpar
        · exact absurd hdiff (List.not_mem_nil x)
      · split at hrand
        · exact Or.inr (Or.inr ⟨_, hrand⟩)
        · exact absurd hrand (List.not_mem_nil x)

/-- C3: when the Pareto set has at least `q` members, the assembled batch is
exactly `q` rows drawn without replacement from `pareto_X`; it contains no
row of `diff_X`, and neither the population nor the random fill influence
it. -/
theorem C3_pareto_large_batch (q : Nat) (pareto pop : List Point)
    (choice : Nat → Nat → List Nat) (randFill : Nat → List Point)
    (hc : ChoiceValid choice)
    (hq : q ≤ pareto.length)
    (hdim : ∀ x ∈ pareto, x ≠ []) :
    (∃ idx, idx.Nodup ∧ idx.length = q ∧ (∀ i ∈ idx, i < pareto.length) ∧
      assembleBatch q pareto pop choice randFill = selectRows pareto idx) ∧
    (assembleBatch q pareto pop choice randFill).length = q ∧
    (∀ x ∈ assembleBatch q pareto pop choice randFill,
      x ∈ pareto ∧ x ∉ diffX pareto pop) ∧
    (∀ pop' randFill',
      assembleBatch q pareto pop' choice randFill'
        = assembleBatch q pareto pop choice randFill) := by
  obtain ⟨hlen, hnodup, hbnd⟩ := hc pareto.length q hq
  have hres : assembleBatch q pareto pop choice randFill
      = selectRows pareto (choice pareto.length q) := by
    simp only [assembleBatch, if_pos hq]
  refine ⟨⟨choice pareto.length q, hnodup, hlen, hbnd, hres⟩, ?_, ?_, ?_⟩
  · rw [hres, selectRows_length, hlen]
  · intro x hx
    rw [hres] at hx
    have hxp : x ∈ pareto := mem_selectRows hbnd hx
    exact ⟨hxp, not_mem_diffX_of_mem_pareto (hdim x hxp) hxp⟩
  · intro pop' randFill'
    rw [hres]
    simp only [assembleBatch, if_pos hq]

/-- C2: when the Pareto set is smaller than `q`, the assembled batch is all
of `pareto_X`, then `min(|diff_X|, q - |pareto_X|)` rows drawn without
replacement from `diff_X`, then — if quota remains — the bootstrap fill of
the remaining quota, concatenated in exactly that order, with total length
exactly `q`. -/
theorem C2_pareto_small_batch (q : Nat) (pareto pop : List Point)
    (choice : Nat → Nat → List Nat) (randFill : Nat → List Point)
    (hc : ChoiceValid choice) (hf : ∀ k, (randFill k).length = k)
    (hq : pareto.length < q) :
    ∃ fromDiff fromRand,
      assembleBatch q pareto pop choice randFill = pareto ++ fromDiff ++ fromRand ∧
      fromDiff.length = min (diffX pareto pop).length (q - pareto.length) ∧
      (∃ idx, idx.Nodup ∧ (∀ i ∈ idx, i < (diffX pareto pop).length) ∧
        fromDiff = selectRows (diffX pareto pop) idx) ∧
      (∀ x ∈ fromDiff, x ∈ diffX pareto pop) ∧
      fromRand = (if 0 < q - (pareto.length + fromDiff.length)
        then randFill (q - (pareto.length + fromDiff.length)) else []) ∧
      (pareto ++ fromDiff ++ fromRand).length = q := by
  have hnle : ¬ q ≤ pareto.length := by omega
  by_cases hd : 0 < (diffX pareto pop).length
  · obtain ⟨hlen, hnodup, hbnd⟩ :=
      hc (diffX pareto pop).length
        (min (diffX pareto pop).length (q - pareto.length)) (Nat.min_le_left _ _)
    refine ⟨selectRows (diffX pareto pop)
        (choice (diffX pareto pop).length
          (min (diffX pareto pop).length (q - pareto.length))), _,
      ?_, ?_, ?_, ?_, rfl, ?_⟩
    · simp only [assembleBatch, if_neg hnle, if_pos hd]
    · rw [selectRows_length, hlen]
    · exact ⟨_, hnodup, hbnd, rfl⟩
    · intro x hx
      exact mem_selectRows hbnd hx
    · simp only [List.length_append, selectRows_length, hlen]
      by_cases hquota : 0 < q - (pareto.length +
          min (diffX pareto pop).length (q - pareto.length))
      · rw [if_pos (by simpa [selectRows_length, hlen] using hquota), hf]
        omega
      · rw [if_neg (by simpa [selectRows_length, hlen] using hquota), List.length_nil]
        omega
  · have h0 : (diffX pareto pop).length = 0 := by omega
    have hquota : 0 < q - (pareto.length + ([] : List Point).length) := by
      simp only [List.length_nil]
      omega
    refine ⟨[], randFill (q - (pareto.length + ([] : List Point).length)),
      ?_, ?_, ?_, ?_, ?_, ?_⟩
    · simp only [assembleBatch, if_neg hnle, if_neg hd, if_pos hquota]
    · simp only [List.length_nil, h0]
      omega
    · exact ⟨[], List.nodup_nil, by simp, rfl⟩
    · intro x hx
      exact absurd hx (List.not_mem_nil x)
    · rw [if_pos hquota]
    · simp only [List.length_append, List.length_nil, hf]
      omega

/-- Witness for C3 at `q = 1`, `pareto_X = [[0], [1]]`,
`pop_X = [[0], [1], [7]]`. -/
theorem C3_pareto_large_batch_witness :
    ChoiceValid exChoice ∧ 1 ≤ exPareto.length ∧ (∀ x ∈ exPareto, x ≠ []) ∧
    ((∃ idx, idx.Nodup ∧ idx.length = 1 ∧ (∀ i ∈ idx, i < exPareto.length) ∧
      assembleBatch 1 exPareto exPop exChoice exFill = selectRows exPareto idx) ∧
    (assembleBatch 1 exPareto exPop exChoice exFill).length = 1 ∧
    (∀ x ∈ assembleBatch 1 exPareto exPop exChoice exFill,
      x ∈ exPareto ∧ x ∉ diffX exPareto exPop) ∧
    (∀ pop' randFill',
      assembleBatch 1 exPareto pop' exChoice randFill'
        = assembleBatch 1 exPareto exPop exChoice exFill)) :=
  ⟨exChoice_valid, by decide, by decide,
    C3_pareto_large_batch 1 exPareto exPop exChoice exFill
      exChoice_valid (by decide) (by decide)⟩

/-- Witness for C2 at `q = 4`, `pareto_X = [[0], [1]]`,
`pop_X = [[0], [1], [7]]` (so `diff_X = [[7]]` and one random-fill point is
needed). -/
theorem C2_pareto_small_batch_witness :
    ChoiceValid exChoice ∧ (∀ k, (exFill k).length = k) ∧ exPareto.length < 4 ∧
    (∃ fromDiff fromRand,
      assembleBatch 4 exPareto exPop exChoice exFill = exPareto ++ fromDiff ++ fromRand ∧
      fromDiff.length = min (diffX exPareto exPop).length (4 - exPareto.length) ∧
      (∃ idx, idx.Nodup ∧ (∀ i ∈ idx, i < (diffX exPareto exPop).length) ∧
        fromDiff = selectRows (diffX exPareto exPop) idx) ∧
      (∀ x ∈ fromDiff, x ∈ diffX exPareto exPop) ∧
      fromRand = (if 0 < 4 - (exPareto.length + fromDiff.length)
        then exFill (4 - (exPareto.length + fromDiff.length)) else []) ∧
      (exPareto ++ fromDiff ++ fromRand).length = 4) :=
  ⟨exChoice_valid, exFill_length, by decide,
    C2_pareto_small_batch 4 exPareto exPop exChoice exFill
      exChoice_valid exFill_length (by decide)⟩

theorem mem_toTrials {pts : List Point} {t : Trial} (h : t ∈ toTrials pts) :
    t.params ∈ pts := by
  simp only [toTrials, List.mem_map] at h
  obtain ⟨r, hr, rfl⟩ := h
  exact hr

/-- A successful `optimize_acqf` returns exactly `q` points, all within the
designer's box, under the external collaborators' interface assumptions. -/
theorem optimize_acqf_ok (cfg : BOConfig) (acqf : AcqfValue) (d : Designer)
    (e : Ext) (w : List LogMsg) (pts : List Point)
    (hext : ExtValid d e)
    (hok : optimize_acqf cfg acqf e = (w, .ok pts)) :
    pts.length = cfg.q ∧ ∀ x ∈ pts, inBounds d.lb d.ub x = true := by
  obtain ⟨hbo, hpar, hpop, hch, hfill⟩ := hext
  rw [optimize_acqf] at hok
  by_cases h1 : cfg.acqf_optimizer = "l-bfgs"
  · rw [if_pos h1] at hok
    have hsnd := congrArg Prod.snd hok
    simp only at hsnd
    injection hsnd with hpts
    rw [← hpts]
    exact ⟨(hbo acqf cfg.q).1, (hbo acqf cfg.q).2⟩
  · rw [if_neg h1] at hok
    by_cases h2 : cfg.acqf_optimizer = "nsgaii"
    · rw [if_pos h2] at hok
      cases hr : runGenerations acqf e.pops cfg.acqf_config.epochs with
      | error err =>
        rw [hr] at hok
        exact absurd (congrArg Prod.snd hok) (by simp)
      | ok u =>
        rw [hr] at hok
        have hsnd := congrArg Prod.snd hok
        simp only at hsnd
        injection hsnd with hpts
        rw [← hpts]
        refine ⟨assembleBatch_length _ _ _ _ _ hch (fun k => (hfill k).1), ?_⟩
        intro x hx
        rcases assembleBatch_mem _ _ _ _ _ hch x hx with h | h | ⟨k, h⟩
        · exact hpar x h
        · exact hpop x h
        · exact (hfill k).2 x h
    · rw [if_neg h2] at hok
      exact absurd (congrArg Prod.snd hok) (by simp)

/-- A successful model-based `suggest` is the converted output of a
successful `optimize_acqf` run. -/
theorem suggest_mb_ok (d : Designer) (e : Ext) (count : Option Nat)
    (w : List LogMsg) (batch : List Trial)
    (hmb : d.cfg.n_init ≤ d.trials.length)
    (hok : suggest d e count = (w, .ok batch)) :
    ∃ pts, optimize_acqf d.cfg (create_acqf d.cfg.acqf_type e.factory) e = (w, .ok pts)
      ∧ batch = toTrials pts := by
  have hnb : ¬ d.trials.length < d.cfg.n_init := by omega
  rw [suggest, if_neg hnb] at hok
  by_cases hchk : SpecType.DOUBLE ∈ featureTypes d.problem ∧
      (featureTypes d.problem).length = 1
  · rw [if_neg (not_not_intro hchk)] at hok
    by_cases hlab : 1 < labelCols d.problem
    · rw [if_pos hlab] at hok
      exact absurd (congrArg Prod.snd hok) (by simp)
    · rw [if_neg hlab] at hok
      rcases hopt : optimize_acqf d.cfg (create_acqf d.cfg.acqf_type e.factory) e
        with ⟨w', r⟩
      rw [hopt] at hok
      cases r with
      | ok pts =>
        have hfst := congrArg Prod.fst hok
        have hsnd := congrArg Prod.snd hok
        simp only [Except.map] at hfst hsnd
        injection hsnd with hb
        refine ⟨pts, ?_, hb.symm⟩
        rw [hfst]
      | error err =>
        have hsnd := congrArg Prod.snd hok
        simp only [Except.map] at hsnd
        exact absurd hsnd (by simp)
  · rw [if_pos hchk] at hok
    exact absurd (congrArg Prod.snd hok) (by simp)

/-- Once in MODEL-BASED state, every successfully returned batch has exactly
`q` trials. -/
theorem suggest_ok_length (d : Designer) (e : Ext) (count : Option Nat)
    (w : List LogMsg) (batch : List Trial)
    (hmb : d.cfg.n_init ≤ d.trials.length)
    (hext : ExtValid d e)
    (hok : suggest d e count = (w, .ok batch)) :
    batch.length = d.cfg.q := by
  obtain ⟨pts, hopt, hb⟩ := suggest_mb_ok d e count w batch hmb hok
  have := (optimize_acqf_ok d.cfg _ d e w pts hext hopt).1
  rw [hb, toTrials, List.length_map]
  exact this

/-- The example externals satisfy the interface assumptions for any designer
built by `mkD` (whose box is `[0, 1]` in one dimension). -/
theorem exExt_valid (cfg : BOConfig) (ts : List Trial) :
    ExtValid (mkD cfg ts) exExt := by
  refine ⟨?_, ?_, ?_, ?_, ?_⟩
  · intro a k
    constructor
    · simp [exExt]
    · intro x hx
      simp only [exExt] at hx
      rw [List.eq_of_mem_replicate hx]
      show inBounds [0] [1] [(1 : ℚ)] = true
      decide
  · intro x hx
    simp [exExt] at hx
  · intro x hx
    simp [exExt] at hx
  · simpa [exExt] using exChoice_valid
  · intro k
    constructor
    · simp [exExt, exFill]
    · intro x hx
      simp only [exExt, exFill] at hx
      rw [List.eq_of_mem_replicate hx]
      show inBounds [0] [1] [(1 : ℚ)] = true
      decide

/-- C1: in MODEL-BASED state (`len(History) >= n_init`), every successfully
returned batch has exactly `q` trials — `q` the batch size fixed at
construction — every returned point lies within `[lb, ub]` element-wise, and
the `count` argument is ignored: `suggest` returns the same output for every
`count`. -/
theorem C1_model_based_batch (d : Designer) (e : Ext) (count : Option Nat)
    (w : List LogMsg) (batch : List Trial)
    (hmb : d.cfg.n_init ≤ d.trials.length)
    (hext : ExtValid d e)
    (hok : suggest d e count = (w, .ok batch)) :
    batch.length = d.cfg.q ∧
    (∀ t ∈ batch, inBounds d.lb d.ub t.params = true) ∧
    (∀ count', suggest d e count' = suggest d e count) := by
  obtain ⟨pts, hopt, hb⟩ := suggest_mb_ok d e count w batch hmb hok
  obtain ⟨hlen, hbnd⟩ := optimize_acqf_ok d.cfg _ d e w pts hext hopt
  have hnb : ¬ d.trials.length < d.cfg.n_init := by omega
  refine ⟨?_, ?_, ?_⟩
  · rw [hb, toTrials, List.length_map]
    exact hlen
  · intro t ht
    rw [hb] at ht
    exact hbnd t.params (mem_toTrials ht)
  · intro count'
    simp only [suggest, if_neg hnb]

/-- Witness for C1: a designer in MODEL-BASED state from construction, the
default `l-bfgs` path, one candidate `[1]` in the unit box. -/
theorem C1_model_based_batch_witness :
    exD0.cfg.n_init ≤ exD0.trials.length ∧
    ExtValid exD0 exExt ∧
    suggest exD0 exExt none = ([], .ok exBatch) ∧
    (exBatch.length = exD0.cfg.q ∧
      (∀ t ∈ exBatch, inBounds exD0.lb exD0.ub t.params = true) ∧
      (∀ count', suggest exD0 exExt count' = suggest exD0 exExt none)) := by
  have hs : suggest exD0 exExt none = ([], .ok exBatch) := by rfl
  exact ⟨by decide, exExt_valid _ _, hs,
    C1_model_based_batch exD0 exExt none [] exBatch (by decide)
      (exExt_valid _ _) hs⟩

/-- C5 (code bug): with `acqf_optimizer = 'nsgaii'` and a single configured
acquisition type, the degenerate-objective warning is logged
(source lines 143-144) but the call does not continue to a batch: the bare
scoring function returned by `create_acqf` is iterated by `acqf_obj`
(source line 153) at the first generation, raising `TypeError`.  Evaluated
here at a concrete designer with the default single `'qEI'` type and default
epoch budget. -/
theorem C5_single_acqf_nsgaii_raises :
    exCfgNs.acqf_type = AcqfTypeCfg.single "qEI" ∧
    exCfgNs.acqf_optimizer = "nsgaii" ∧
    0 < exCfgNs.acqf_config.epochs ∧
    suggest (mkD exCfgNs []) exExt none
      = ([LogMsg.nsgaiiSingleObjective], .error PyErr.typeError) := by
  refine ⟨rfl, rfl, by decide, ?_⟩
  rfl

/-- C7: in MODEL-BASED state, a search space containing a non-continuous
parameter makes `suggest` raise the unsupported-variable error
deterministically (source lines 200-201), and labels with more than one
metric make the call fail (source lines 208-209). -/
theorem C7_model_based_rejects (d : Designer) (e : Ext) (count : Option Nat)
    (hmb : d.cfg.n_init ≤ d.trials.length) :
    ((∃ pa ∈ d.problem.params, pa.type ≠ SpecType.DOUBLE) →
      suggest d e count = ([], .error PyErr.unsupportedVariableType)) ∧
    (2 ≤ d.problem.metrics.length →
      ∃ err, (suggest d e count).2 = .error err) := by
  have hnb : ¬ d.trials.length < d.cfg.n_init := by omega
  have hreject : ∀ (hchk : ¬ (SpecType.DOUBLE ∈ featureTypes d.problem ∧
      (featureTypes d.problem).length = 1)),
      suggest d e count = ([], .error PyErr.unsupportedVariableType) := by
    intro hchk
    simp only [suggest, if_neg hnb, if_pos hchk]
  constructor
  · rintro ⟨pa, hpa, hne⟩
    refine hreject ?_
    rintro ⟨hdm, hlen⟩
    obtain ⟨a, ha⟩ := List.length_eq_one.mp hlen
    rw [ha] at hdm
    have hmemt : pa.type ∈ featureTypes d.problem := by
      simp only [featureTypes, List.mem_dedup, List.mem_map]
      exact ⟨pa, hpa, rfl⟩
    rw [ha] at hmemt
    simp only [List.mem_singleton] at hdm hmemt
    exact hne (hmemt.trans hdm.symm)
  · intro hm
    by_cases hchk : SpecType.DOUBLE ∈ featureTypes d.problem ∧
        (featureTypes d.problem).length = 1
    · refine ⟨PyErr.unsupportedMultiobjective, ?_⟩
      have hlab : 1 < labelCols d.problem := by
        simp only [labelCols]
        omega
      simp only [suggest, if_neg hnb, if_neg (not_not_intro hchk), if_pos hlab]
    · refine ⟨PyErr.unsupportedVariableType, ?_⟩
      rw [hreject hchk]

/-- Witness for C7 at a designer whose (single) parameter is categorical and
whose objective has one metric; `n_init = 0` puts it in MODEL-BASED state. -/
theorem C7_model_based_rejects_witness :
    exDCat.cfg.n_init ≤ exDCat.trials.length ∧
    (((∃ pa ∈ exDCat.problem.params, pa.type ≠ SpecType.DOUBLE) →
      suggest exDCat exExt none = ([], .error PyErr.unsupportedVariableType)) ∧
    (2 ≤ exDCat.problem.metrics.length →
      ∃ err, (suggest exDCat exExt none).2 = .error err)) :=
  ⟨by decide, C7_model_based_rejects exDCat exExt none (by decide)⟩

/-- C10: with no configuration beyond the problem statement the designer's
defaults are `n_init = 10`, `q = 1`, device `'cpu'`, acquisition type
`'qEI'`, model-fit optimizer `'l-bfgs'` and acquisition optimizer `'l-bfgs'`;
with fewer than 10 completed trials `suggest` delegates to the bootstrap
random sub-designer, and from 10 trials on every successful `suggest` returns
a single point. -/
theorem C10_defaults :
    defaultBOConfig.n_init = 10 ∧
    defaultBOConfig.q = 1 ∧
    defaultBOConfig.device = "cpu" ∧
    defaultBOConfig.acqf_type = AcqfTypeCfg.single "qEI" ∧
    defaultBOConfig.mll_optimizer = "l-bfgs" ∧
    defaultBOConfig.acqf_optimizer = "l-bfgs" ∧
    (∀ (d : Designer) (e : Ext) (count : Option Nat),
      d.cfg = defaultBOConfig → d.trials.length < 10 →
      suggest d e count = ([], .ok (e.randomSuggest count))) ∧
    (∀ (d : Designer) (e : Ext) (count : Option Nat) (w : List LogMsg)
        (batch : List Trial),
      d.cfg = defaultBOConfig → 10 ≤ d.trials.length → ExtValid d e →
      suggest d e count = (w, .ok batch) → batch.length = 1) := by
  refine ⟨rfl, rfl, rfl, rfl, rfl, rfl, ?_, ?_⟩
  · intro d e count hcfg hlt
    have hboot : d.trials.length < d.cfg.n_init := by
      rw [hcfg]
      exact hlt
    rw [suggest, if_pos hboot]
  · intro d e count w batch hcfg hge hext hok
    have hq : d.cfg.q = 1 := by
      rw [hcfg]
      rfl
    rw [← hq]
    refine suggest_ok_length d e count w batch ?_ hext hok
    rw [hcfg]
    exact hge

/-- Witness for C10: the all-default designer is bootstrap-random below 10
trials and returns a single point at 10 trials. -/
theorem C10_defaults_witness :
    (mkD defaultBOConfig []).cfg = defaultBOConfig ∧
    (mkD defaultBOConfig []).trials.length < 10 ∧
    suggest (mkD defaultBOConfig []) exExt (some 3)
      = ([], .ok (exExt.randomSuggest (some 3))) ∧
    exD10.cfg = defaultBOConfig ∧
    10 ≤ exD10.trials.length ∧
    ExtValid exD10 exExt ∧
    suggest exD10 exExt none = ([], .ok exBatch) ∧
    exBatch.length = 1 := by
  have hs : suggest exD10 exExt none = ([], .ok exBatch) := by rfl
  refine ⟨rfl, by decide, ?_, rfl, by decide, exExt_valid _ _, hs, ?_⟩
  · exact C10_defaults.2.2.2.2.2.2.1 (mkD defaultBOConfig []) exExt (some 3)
      rfl (by decide)
  · exact C10_defaults.2.2.2.2.2.2.2 exD10 exExt none [] exBatch
      rfl (by decide) (exExt_valid _ _) hs

/-! ## Label standardization over the reals (C6) -/

theorem sum_map_affine (l : List ℝ) (m c : ℝ) :
    (l.map (fun y => (y - m) / c)).sum = (l.sum - l.length * m) / c := by
  induction l with
  | nil => simp
  | cons a t ih =>
    simp only [List.map_cons, List.sum_cons, ih, List.length_cons]
    push_cast
    ring

theorem sum_map_sq_affine (l : List ℝ) (m c : ℝ) :
    (l.map (fun y => ((y - m) / c) ^ 2)).sum
      = (l.map (fun y => (y - m) ^ 2)).sum / c ^ 2 := by
  induction l with
  | nil => simp
  | cons a t ih =>
    simp only [List.map_cons, List.sum_cons, ih]
    ring

theorem sum_of_const (l : List ℝ) (x : ℝ) (h : ∀ z ∈ l, z = x) :
    l.sum = l.length * x := by
  induction l with
  | nil => simp
  | cons a t ih =>
    have ha : a = x := h a (List.mem_cons_self a t)
    have ht : ∀ z ∈ t, z = x := fun z hz => h z (List.mem_cons_of_mem a hz)
    simp only [List.sum_cons, List.length_cons, ih ht, ha]
    push_cast
    ring

theorem length_cast_ne_zero {l : List ℝ} (h : l ≠ []) : (l.length : ℝ) ≠ 0 := by
  have h1 : l.length ≠ 0 := fun hl => h (List.length_eq_zero.mp hl)
  exact_mod_cast h1

theorem npVar_nonneg (l : List ℝ) : 0 ≤ npVar l := by
  unfold npVar
  apply div_nonneg
  · apply List.sum_nonneg
    intro x hx
    simp only [List.mem_map] at hx
    obtain ⟨y, hy, rfl⟩ := hx
    positivity
  · positivity

theorem npStd_nonneg (l : List ℝ) : 0 ≤ npStd l := Real.sqrt_nonneg _

/-- The standardization denominator `std(y) + 1e-6` is always strictly
positive: no division by zero, also for constant labels. -/
theorem denom_pos (l : List ℝ) : 0 < npStd l + 1e-6 := by
  have h1 := npStd_nonneg l
  have h2 : (0 : ℝ) < 1e-6 := by norm_num
  linarith

theorem npMean_standardize (l : List ℝ) (h : l ≠ []) :
    npMean (standardize l) = 0 := by
  have hn : (l.length : ℝ) ≠ 0 := length_cast_ne_zero h
  simp only [npMean, standardize, List.length_map]
  rw [sum_map_affine]
  have hc : (l.length : ℝ) * (l.sum / l.length) = l.sum := by field_simp
  rw [hc, sub_self, zero_div, zero_div]

theorem npVar_standardize (l : List ℝ) (h : l ≠ []) :
    npVar (standardize l) = npVar l / (npStd l + 1e-6) ^ 2 := by
  have hmean := npMean_standardize l h
  show ((standardize l).map (fun x => (x - npMean (standardize l)) ^ 2)).sum
      / (standardize l).length = npVar l / (npStd l + 1e-6) ^ 2
  rw [hmean]
  simp only [sub_zero, List.length_map, standardize, List.map_map,
    Function.comp_def]
  rw [sum_map_sq_affine]
  show (l.map (fun y => (y - npMean l) ^ 2)).sum / (npStd l + 1e-6) ^ 2 / l.length
      = (l.map (fun x => (x - npMean l) ^ 2)).sum / l.length / (npStd l + 1e-6) ^ 2
  ring

theorem npStd_standardize (l : List ℝ) (h : l ≠ []) :
    npStd (standardize l) = npStd l / (npStd l + 1e-6) := by
  have hc : 0 < npStd l + 1e-6 := denom_pos l
  show Real.sqrt (npVar (standardize l)) = npStd l / (npStd l + 1e-6)
  rw [npVar_standardize l h, Real.sqrt_div (npVar_nonneg l), Real.sqrt_sq hc.le]
  rfl

theorem npVar_pos (l : List ℝ) (a b : ℝ) (ha : a ∈ l) (hb : b ∈ l)
    (hab : a ≠ b) : 0 < npVar l := by
  have hne : l ≠ [] := by
    intro hl
    rw [hl] at ha
    exact absurd ha (List.not_mem_nil a)
  obtain ⟨x, hxl, hxm⟩ : ∃ x ∈ l, x ≠ npMean l := by
    by_cases hA : a = npMean l
    · exact ⟨b, hb, fun hB => hab (hA.trans hB.symm)⟩
    · exact ⟨a, ha, hA⟩
  have hterm : 0 < (x - npMean l) ^ 2 :=
    pow_two_pos_of_ne_zero (sub_ne_zero.mpr hxm)
  have hsum : (x - npMean l) ^ 2 ≤ (l.map (fun y => (y - npMean l) ^ 2)).sum := by
    apply List.single_le_sum
    · intro y hy
      simp only [List.mem_map] at hy
      obtain ⟨z, hz, rfl⟩ := hy
      positivity
    · exact List.mem_map.mpr ⟨x, hxl, rfl⟩
  unfold npVar
  apply div_pos (lt_of_lt_of_le hterm hsum)
  have h1 : l.length ≠ 0 := fun hl => hne (List.length_eq_zero.mp hl)
  exact_mod_cast Nat.pos_of_ne_zero h1

/-- C6: labels are standardized as `(y - mean(y)) / (std(y) + 1e-6)`; the
denominator is always positive (no division by zero).  For non-constant
labels the standardized labels have mean exactly 0 and standard deviation
`std(y) / (std(y) + 1e-6)`, which is within `1e-6 / std(y)` of 1; for
constant labels every standardized value is 0 (finite). -/
theorem C6_label_standardization (l : List ℝ) (hne : l ≠ []) :
    0 < npStd l + 1e-6 ∧
    ((∃ a ∈ l, ∃ b ∈ l, a ≠ b) →
      npMean (standardize l) = 0 ∧
      npStd (standardize l) = npStd l / (npStd l + 1e-6) ∧
      |npStd (standardize l) - 1| ≤ 1e-6 / npStd l) ∧
    ((∀ a ∈ l, ∀ b ∈ l, a = b) → ∀ y ∈ standardize l, y = 0) := by
  refine ⟨denom_pos l, ?_, ?_⟩
  · rintro ⟨a, ha, b, hb, hab⟩
    have hv : 0 < npVar l := npVar_pos l a b ha hb hab
    have hs : 0 < npStd l := Real.sqrt_pos.mpr hv
    have hc : 0 < npStd l + 1e-6 := denom_pos l
    refine ⟨npMean_standardize l hne, npStd_standardize l hne, ?_⟩
    rw [npStd_standardize l hne]
    have heq : npStd l / (npStd l + 1e-6) - 1 = -(1e-6 / (npStd l + 1e-6)) := by
      rw [div_sub_one hc.ne']
      rw [show npStd l - (npStd l + 1e-6) = -(1e-6) from by ring, neg_div]
    rw [heq, abs_neg, abs_of_nonneg (by positivity)]
    gcongr
    linarith
  · intro hconst y hy
    simp only [standardize, List.mem_map] at hy
    obtain ⟨x, hxl, rfl⟩ := hy
    have hn : (l.length : ℝ) ≠ 0 := length_cast_ne_zero hne
    have hm : npMean l = x := by
      unfold npMean
      rw [sum_of_const l x (fun z hz => hconst z hz x hxl), mul_comm,
        mul_div_assoc, div_self hn, mul_one]
    rw [hm, sub_self, zero_div]

/-- Witness for C6 at the non-constant label list `[0, 2]`. -/
theorem C6_label_standardization_witness :
    ([(0 : ℝ), 2] ≠ []) ∧
    (0 < npStd [(0 : ℝ), 2] + 1e-6 ∧
      ((∃ a ∈ [(0 : ℝ), 2], ∃ b ∈ [(0 : ℝ), 2], a ≠ b) →
        npMean (standardize [(0 : ℝ), 2]) = 0 ∧
        npStd (standardize [(0 : ℝ), 2])
          = npStd [(0 : ℝ), 2] / (npStd [(0 : ℝ), 2] + 1e-6) ∧
        |npStd (standardize [(0 : ℝ), 2]) - 1| ≤ 1e-6 / npStd [(0 : ℝ), 2]) ∧
      ((∀ a ∈ [(0 : ℝ), 2], ∀ b ∈ [(0 : ℝ), 2], a = b) →
        ∀ y ∈ standardize [(0 : ℝ), 2], y = 0)) :=
  ⟨by simp, C6_label_standardization [(0 : ℝ), 2] (by simp)⟩

end BBO
